import Mathlib

/-!
Shallow embedding of the sui-cli credential vault (src/sui-cli/src/wallet.rs)
and session pipeline (src/sui-cli/src/main.rs).  External cryptographic
libraries (PBKDF2, AES-256-GCM, ed25519-dalek, blake2b_simd) are modelled at
their interfaces: key derivation and the AEAD layer symbolically (ideal-cipher
style: a ciphertext opens only under the key and nonce it was created with),
the hash and public-key maps as deterministic byte functions of the correct
output shape, since no claim depends on their concrete values.  Bytes are
natural numbers below 256; randomness (salt/nonce generation) is passed as
explicit arguments.
-/

/-- Error taxonomy of the spec (section 7).  The source reports errors as
anyhow messages; each constructor groups the messages the spec assigns to one
error class. -/
inductive Err where
  | duplicateName (name : String)
  | notFound (name : String)
  | invalidPassword
  | validation (msg : String)
  | decodeFailed (field : String)
  | connectionTimeout (msg : String)
deriving DecidableEq, Repr

/-- Hex value of one character, as accepted by hex::decode (either case). -/
def hexDigitVal (c : Char) : Option Nat :=
  if '0' ≤ c ∧ c ≤ '9' then some (c.toNat - 48)
  else if 'a' ≤ c ∧ c ≤ 'f' then some (c.toNat - 87)
  else if 'A' ≤ c ∧ c ≤ 'F' then some (c.toNat - 55)
  else none

/-- Lower-case hex digit for a value below 16, as produced by hex::encode. -/
def hexDigitChar (n : Nat) : Char :=
  if n < 10 then Char.ofNat (48 + n) else Char.ofNat (87 + n)

/-- hex::decode on a character list: pairs of digits, even length required. -/
def hexDecodeAux : List Char → Option (List Nat)
  | [] => some []
  | [_] => none
  | c1 :: c2 :: rest =>
    match hexDigitVal c1, hexDigitVal c2, hexDecodeAux rest with
    | some hi, some lo, some bs => some ((hi * 16 + lo) :: bs)
    | _, _, _ => none

/-- hex::decode. -/
def hexDecode (s : String) : Option (List Nat) := hexDecodeAux s.data

/-- hex::encode. -/
def hexEncode (bs : List Nat) : String :=
  String.mk (bs.foldr (fun b acc => hexDigitChar (b / 16) :: hexDigitChar (b % 16) :: acc) [])

/-- All elements are bytes (the List Nat image of a Rust byte slice). -/
def bytesOk (l : List Nat) : Prop := ∀ b ∈ l, b < 256

instance (l : List Nat) : Decidable (bytesOk l) := by
  unfold bytesOk; infer_instance

instance {e a : Type} [DecidableEq e] [DecidableEq a] : DecidableEq (Except e a)
  | .error x, .error y =>
    if h : x = y then .isTrue (by rw [h]) else .isFalse (fun hc => h (Except.error.inj hc))
  | .error _, .ok _ => .isFalse (fun hc => Except.noConfusion hc)
  | .ok _, .error _ => .isFalse (fun hc => Except.noConfusion hc)
  | .ok x, .ok y =>
    if h : x = y then .isTrue (by rw [h]) else .isFalse (fun hc => h (Except.ok.inj hc))

/-- Modelled interface of pbkdf2_hmac-SHA256 (wallet.rs:159-163): a
deterministic map from password and salt to a 256-bit key, modelled
symbolically as the pair itself (ideal KDF: distinct password/salt inputs
yield distinct keys). -/
structure DerivedKey where
  password : String
  salt : List Nat
deriving DecidableEq, Repr

/-- derive_key (wallet.rs:159-163). -/
def derive_key (password : String) (salt : List Nat) : DerivedKey :=
  { password := password, salt := salt }

/-- Modelled interface of an Aes256Gcm ciphertext: ideal authenticated
encryption, recording the key and nonce it was produced under and the
plaintext it protects.  The source additionally hex-encodes the ciphertext
bytes for storage; that encoding is information-preserving and folded into
this representation.  The plaintext is kept as the string whose UTF-8 bytes
were encrypted (the UTF-8 round trip of the source is identity). -/
structure Ciphertext where
  key : DerivedKey
  nonce : List Nat
  plaintext : String
deriving DecidableEq, Repr

/-- Aes256Gcm::encrypt (ideal model; never fails in the source either). -/
def aes256gcm_encrypt (key : DerivedKey) (nonce : List Nat) (pt : String) : Ciphertext :=
  { key := key, nonce := nonce, plaintext := pt }

/-- Aes256Gcm::decrypt (ideal model): the authentication tag verifies exactly
when key and nonce match the ones used at encryption time; any mismatch —
wrong key or tampered ciphertext — fails identically. -/
def aes256gcm_decrypt (key : DerivedKey) (nonce : List Nat) (ct : Ciphertext) : Option String :=
  if ct.key = key ∧ ct.nonce = nonce then some ct.plaintext else none

/-! ## bech32 (rust bech32 0.9, as called by derive_sui_address) -/

/-- The 32-character bech32 data alphabet. -/
def bech32Charset : List Char :=
  ['q','p','z','r','y','9','x','8','g','f','2','t','v','d','w','0',
   's','3','j','n','5','4','k','h','c','e','6','m','u','a','7','l']

/-- Index of a character in a list (position of its first occurrence). -/
def charIdx : List Char → Char → Option Nat
  | [], _ => none
  | d :: rest, c => if c = d then some 0 else (charIdx rest c).map (· + 1)

/-- Generator constants of the bech32 checksum. -/
def bech32GenConsts : List Nat :=
  [0x3b6a57b2, 0x26508e6d, 0x1ea119fa, 0x3d4233dd, 0x2a1462b3]

/-- One step of the bech32 checksum polymod. -/
def bech32PolymodStep (chk : Nat) (v : Nat) : Nat :=
  let b := chk >>> 25
  let chk2 := ((chk &&& 0x1ffffff) <<< 5) ^^^ v
  (List.range 5).foldl
    (fun c i => if (b >>> i) &&& 1 = 1 then c ^^^ bech32GenConsts.getD i 0 else c) chk2

/-- The bech32 checksum polymod. -/
def bech32Polymod (values : List Nat) : Nat := values.foldl bech32PolymodStep 1

/-- Expansion of the human-readable part for checksumming. -/
def bech32HrpExpand (hrp : List Char) : List Nat :=
  hrp.map (fun c => c.toNat >>> 5) ++ [0] ++ hrp.map (fun c => c.toNat &&& 31)

/-- Splits a character list at its last separator character 1: returns the
part before it and the part after it, or none if no separator occurs. -/
def splitLastSep : List Char → Option (List Char × List Char)
  | [] => none
  | c :: rest =>
    match splitLastSep rest with
    | some (h, t) => some (c :: h, t)
    | none => if c = '1' then some ([], rest) else none

/-- Maps data-part characters to their 5-bit values, failing on any character
outside the alphabet. -/
def mapCharset : List Char → Option (List Nat)
  | [] => some []
  | c :: rest =>
    match charIdx bech32Charset c, mapCharset rest with
    | some v, some vs => some (v :: vs)
    | _, _ => none

/-- bech32::decode (bech32 crate 0.9): mixed-case rejection, split at the last
separator, human-readable-part validity, data alphabet mapping, and checksum
verification under either the Bech32 or the Bech32m constant; returns the
human-readable part and the 5-bit data values with the checksum removed. -/
def bech32_decode (s : String) : Option (String × List Nat) :=
  let cs := s.data
  if cs.any Char.isUpper ∧ cs.any Char.isLower then none
  else
    let low := cs.map Char.toLower
    match splitLastSep low with
    | none => none
    | some (hrp, dataPart) =>
      if hrp.length = 0 then none
      else if hrp.any (fun c => c.toNat < 33 ∨ 126 < c.toNat) then none
      else if dataPart.length < 6 then none
      else
        match mapCharset dataPart with
        | none => none
        | some vals =>
          let chk := bech32Polymod (bech32HrpExpand hrp ++ vals)
          if chk = 1 ∨ chk = 0x2bc830a3 then
            some (String.mk hrp, vals.take (vals.length - 6))
          else none

/-- One step of the strict 5-to-8 bit regrouping (accumulator, pending bit
count, output bytes in reverse). -/
def convertStep : Nat × Nat × List Nat → Nat → Nat × Nat × List Nat
  | (acc, bits, out), v =>
    let acc2 := (acc <<< 5) ||| v
    let bits2 := bits + 5
    if 8 ≤ bits2 then (acc2, bits2 - 8, ((acc2 >>> (bits2 - 8)) &&& 255) :: out)
    else (acc2, bits2, out)

/-- Vec::from_base32: strict 5-to-8 bit regrouping, rejecting a leftover of
five or more bits and non-zero padding bits. -/
def from_base32 (data : List Nat) : Option (List Nat) :=
  match data.foldl convertStep (0, 0, []) with
  | (acc, bits, out) =>
    if 5 ≤ bits then none
    else if bits ≠ 0 ∧ (acc <<< (8 - bits)) &&& 255 ≠ 0 then none
    else some out.reverse

/-- Modelled interface of ed25519-dalek key-pair derivation
(SecretKey::from_bytes then PublicKey::from, wallet.rs:180-182): the claims
use only that it is a deterministic map from 32 secret bytes to 32 public
bytes, so the curve arithmetic is replaced by a fixed deterministic byte map
of that shape. -/
def ed25519_public_key (sk : List Nat) : List Nat :=
  (List.range 32).map (fun i => (sk.foldl (fun a b => (a * 131 + b + 7) % 65521) (i + 1)) % 256)

/-- Modelled interface of blake2b_simd with hash_length 32 (wallet.rs:187-194):
a deterministic 32-byte digest; the claims use only determinism and output
shape, so the compression function is replaced by a fixed deterministic byte
map. -/
def blake2b_256 (msg : List Nat) : List Nat :=
  (List.range 32).map (fun i => (msg.foldl (fun a b => (a * 167 + b + 1) % 65521) (i * 37 + 11)) % 256)

/-- str::trim_start_matches applied to the marker 0x: removes every leading
repetition of the two characters. -/
def strip0xAll : List Char → List Char
  | '0' :: 'x' :: rest => strip0xAll rest
  | l => l

/-- str::starts_with on character lists (the byte-position based String
functions do not reduce in proofs, so the prefix test is modelled on the
character list directly). -/
def starts_with_chars : List Char → List Char → Bool
  | _, [] => true
  | [], _ :: _ => false
  | c :: cs, p :: ps => c == p && starts_with_chars cs ps

/-- Substring containment on character lists (used to inspect diagnostic
messages). -/
def contains_sub : List Char → List Char → Bool
  | [], needle => needle.isEmpty
  | c :: rest, needle => starts_with_chars (c :: rest) needle || contains_sub rest needle

/-- The pk_bytes computation at the top of derive_sui_address
(wallet.rs:166-177): bech32 route when the string starts with suiprivkey,
hex route (after stripping leading 0x markers) otherwise. -/
def priv_key_bytes (s : String) : Except Err (List Nat) :=
  if starts_with_chars s.data "suiprivkey".data then
    match bech32_decode s with
    | none => .error (.validation "Invalid bech32 private key")
    | some (_, data) =>
      match from_base32 data with
      | none => .error (.validation "Failed to convert from base32")
      | some decoded =>
        if decoded.length = 33 ∧ decoded.head? = some 0 then .ok (decoded.drop 1)
        else .error (.validation "Invalid sui private key format")
  else
    match hexDecode (String.mk (strip0xAll s.data)) with
    | none => .error (.validation "Invalid private key hex")
    | some bs => .ok bs

/-- derive_sui_address (wallet.rs:165-197): decode the key material, check the
32-byte length (SecretKey::from_bytes succeeds exactly on 32 bytes), derive
the public key, and hex-encode the 32-byte hash of the ed25519 scheme flag
byte 0x00 followed by the public key bytes, under a 0x marker. -/
def derive_sui_address (s : String) : Except Err String :=
  match priv_key_bytes s with
  | .error e => .error e
  | .ok pk =>
    if pk.length = 32 then
      .ok ("0x" ++ hexEncode (blake2b_256 (0 :: ed25519_public_key pk)))
    else .error (.validation "Invalid private key length")

/-! ## The wallet store (wallet.rs) -/

/-- Wallet (wallet.rs:16-24); encrypted_private_key holds the (hex-encoded)
AES-GCM ciphertext under its ideal model, salt and nonce the hex encodings of
the random bytes drawn at add time. -/
structure Wallet where
  name : String
  public_key : Option String
  encrypted_private_key : Ciphertext
  salt : String
  nonce : String
deriving DecidableEq, Repr

/-- WalletStore (wallet.rs:26-31): the in-memory record list plus the
serialized backing file, modelled as the last record list written by save
(none stands for whatever was on disk before any save of this run; the path
field is runtime-only and not part of the serialized state). -/
structure WalletStore where
  wallets : List Wallet
  file : Option (List Wallet)
deriving DecidableEq, Repr

/-- WalletStore::save (wallet.rs:52-61): full truncating rewrite of the
backing file with the serialized record list. -/
def WalletStore.save (st : WalletStore) : WalletStore :=
  { st with file := some st.wallets }

/-- WalletStore::add_wallet (wallet.rs:63-96).  The fresh random salt and
nonce bytes drawn from OsRng are explicit arguments; the operation mutates the
store in place and returns the Result, so the error cases hand back the store
exactly as it was. -/
def add_wallet (name key_str password : String) (salt nonce_bytes : List Nat)
    (st : WalletStore) : WalletStore × Except Err Unit :=
  if st.wallets.any (fun w => w.name == name) then
    (st, .error (.duplicateName name))
  else
    match derive_sui_address key_str with
    | .error e => (st, .error e)
    | .ok addr =>
      let key := derive_key password salt
      let ct := aes256gcm_encrypt key nonce_bytes key_str
      let w : Wallet :=
        { name := name, public_key := some addr, encrypted_private_key := ct,
          salt := hexEncode salt, nonce := hexEncode nonce_bytes }
      (WalletStore.save { st with wallets := st.wallets ++ [w] }, .ok ())

/-- WalletStore::decrypt_private_key (wallet.rs:122-141): look the record up
by name, decode salt and nonce, derive the key from the supplied password, and
authenticated-decrypt; an authentication failure is reported as the single
invalid-password error, and the final UTF-8 decode of the source is the
identity on the plaintext string. -/
def decrypt_private_key (st : WalletStore) (name password : String) : Except Err String :=
  match st.wallets.find? (fun w => w.name == name) with
  | none => .error (.notFound name)
  | some w =>
    match hexDecode w.salt with
    | none => .error (.decodeFailed "salt")
    | some salt =>
      let key := derive_key password salt
      match hexDecode w.nonce with
      | none => .error (.decodeFailed "nonce")
      | some nonce_bytes =>
        match aes256gcm_decrypt key nonce_bytes w.encrypted_private_key with
        | none => .error .invalidPassword
        | some pt => .ok pt

/-- WalletStore::remove_wallet (wallet.rs:143-155): decrypt first as the
password proof-of-possession check, then locate and delete the record and
persist. -/
def remove_wallet (name password : String) (st : WalletStore) : WalletStore × Except Err Unit :=
  match decrypt_private_key st name password with
  | .error e => (st, .error e)
  | .ok _ =>
    match st.wallets.findIdx? (fun w => w.name == name) with
    | none => (st, .error (.notFound name))
    | some i => (WalletStore.save { st with wallets := st.wallets.eraseIdx i }, .ok ())

/-! ## Session pipeline (main.rs) -/

/-- MAX_RETRIES (main.rs:211). -/
def MAX_RETRIES : Nat := 90

/-- The connection retry loop of run_cli (main.rs:223-237): connect gives the
outcome of the i-th attempt; the result carries the connection obtained (if
any) and the number of attempts performed, with success breaking out of the
loop immediately. -/
def connect_retry_go {α : Type} (connect : Nat → Option α) : Nat → Nat → Option α × Nat
  | 0, i => (none, i)
  | fuel + 1, i =>
    match connect i with
    | some c => (some c, i + 1)
    | none => connect_retry_go connect fuel (i + 1)

/-- The whole retry loop, attempts counted from zero. -/
def connect_with_retry {α : Type} (connect : Nat → Option α) (maxAttempts : Nat) :
    Option α × Nat :=
  connect_retry_go connect maxAttempts 0

/-- The fixed context message attached on retry exhaustion (main.rs:243). -/
def connect_timeout_msg : String :=
  "Failed to connect to the agent gRPC server after the timeout. The agent may have failed to start."

/-- run_cli's handling of the retry result (main.rs:239-244): exhaustion turns
the absent client into an error carrying the fixed context message. -/
def connect_stage {α : Type} (connect : Nat → Option α) : Except Err α :=
  match (connect_with_retry connect MAX_RETRIES).1 with
  | some c => .ok c
  | none => .error (.connectionTimeout connect_timeout_msg)

/-- Observable events of the session model. -/
inductive Event where
  | connectAttempt
  | kill
deriving DecidableEq, Repr

/-- How the guarded scope of run_cli is left. -/
inductive ExitKind where
  | normal
  | earlyError
  | abort
deriving DecidableEq, Repr

/-- run_cli after the agent process has been spawned (main.rs:202-294): the
ChildProcessGuard takes ownership of the child, the connection stage may fail
(an early error return through the question-mark operator) and the TUI loop
may end normally or through a panic-equivalent abort that unwinds the scope;
Drop for ChildProcessGuard (main.rs:29-39) runs exactly once on each of these
scope exits, appending the kill of the child process to the event trace. -/
def run_cli_after_spawn (connect : Nat → Option Unit) (loopAborts : Bool) :
    ExitKind × List Event :=
  let body : ExitKind × List Event :=
    match connect_with_retry connect MAX_RETRIES with
    | (none, n) => (.earlyError, List.replicate n .connectAttempt)
    | (some _, n) =>
      (if loopAborts then .abort else .normal, List.replicate n .connectAttempt)
  (body.1, body.2 ++ [.kill])

/-! ## Streaming transcript (main.rs drain loop; App modelled from the spec) -/

/-- Modelled from the spec: the ChatMessage sender enumeration (section 3);
app.rs is not under src/. -/
inductive Sender where
  | user
  | agent
deriving DecidableEq, Repr

/-- Modelled from the spec: ChatMessage (section 3); app.rs is not under
src/. -/
structure ChatMessage where
  sender : Sender
  content : String
  is_streaming : Bool
deriving DecidableEq, Repr

/-- Modelled from the spec: the App transcript state (section 4.6); app.rs is
not under src/. -/
structure App where
  messages : List ChatMessage
deriving DecidableEq, Repr

/-- Applies a function to the last element of a list, if any. -/
def modify_last {α : Type} (f : α → α) : List α → List α
  | [] => []
  | [a] => [f a]
  | a :: b :: rest => a :: modify_last f (b :: rest)

/-- Modelled from the spec: App::append_stream — each fragment appends to the
in-progress (streaming) Agent ChatMessage, the last message of the transcript
(sections 3 and 4.6); app.rs is not under src/. -/
def append_stream (app : App) (s : String) : App :=
  { messages :=
      modify_last
        (fun m => if m.is_streaming then { m with content := m.content ++ s } else m)
        app.messages }

/-- Modelled from the spec: App::finalize_ai_message — finalizing marks the
in-progress message non-streaming (section 3); app.rs is not under src/. -/
def finalize_ai_message (app : App) : App :=
  { messages := modify_last (fun m => { m with is_streaming := false }) app.messages }

/-- The distinguished terminator sentinel (main.rs:282). -/
def STREAM_END : String := "[STREAM_END]"

/-- The channel drain loop of run_cli (main.rs:281-287), with the fragments
currently available on the channel as an explicit queue: the terminator
finalizes the in-progress message, every other fragment is appended. -/
def drain_received (queue : List String) (app : App) : App :=
  queue.foldl
    (fun a msg => if msg = STREAM_END then finalize_ai_message a else append_stream a msg) app

/-! ## Claim-side definitions for the derive_address input-shape claim -/

/-- Strips a single optional leading 0x marker. -/
def strip0xOnce : List Char → List Char
  | '0' :: 'x' :: rest => rest
  | l => l

/-- The input shapes exactly as claim C4 states them: a bech32-style string
(any human-readable part) whose decoded payload is one 0x00 scheme byte
followed by 32 key bytes, or a hex string with one optional leading 0x marker
decoding to exactly 32 bytes. -/
def claim_key_bytes (s : String) : Option (List Nat) :=
  match
    (match bech32_decode s with
     | some (_, data) =>
       match from_base32 data with
       | some decoded =>
         if decoded.length = 33 ∧ decoded.head? = some 0 then some (decoded.drop 1) else none
       | none => none
     | none => none)
  with
  | some pk => some pk
  | none =>
    match hexDecode (String.mk (strip0xOnce s.data)) with
    | some bs => if bs.length = 32 then some bs else none
    | none => none

/-- The amended input shapes: the bech32 route applies exactly to strings
starting with the fixed human-readable suiprivkey marker, and the hex route
strips every repetition of the leading 0x marker before decoding. -/
def amended_key_bytes (s : String) : Option (List Nat) :=
  if starts_with_chars s.data "suiprivkey".data then
    match bech32_decode s with
    | some (_, data) =>
      match from_base32 data with
      | some decoded =>
        if decoded.length = 33 ∧ decoded.head? = some 0 then some (decoded.drop 1) else none
      | none => none
    | none => none
  else
    match hexDecode (String.mk (strip0xAll s.data)) with
    | some bs => if bs.length = 32 then some bs else none
    | none => none

/-- A concrete example store used by the witnesses: one record named a,
encrypted under the password pw with salt byte 0 and nonce byte 1. -/
def exampleStore : WalletStore :=
  { wallets :=
      [{ name := "a", public_key := some "addr",
         encrypted_private_key :=
           { key := { password := "pw", salt := [0] }, nonce := [1], plaintext := "sk" },
         salt := "00", nonce := "01" }],
    file := none }


/-! ## Helper lemmas -/

theorem hexDigit_roundtrip : ∀ n < 16, hexDigitVal (hexDigitChar n) = some n := by decide

theorem hexDecode_hexEncode (bs : List Nat) (h : bytesOk bs) :
    hexDecode (hexEncode bs) = some bs := by
  induction bs with
  | nil => rfl
  | cons b rest ih =>
    have hb : b < 256 := h b (by simp)
    have hhi : b / 16 < 16 := by omega
    have hlo : b % 16 < 16 := Nat.mod_lt _ (by norm_num)
    have hrest : hexDecode (hexEncode rest) = some rest :=
      ih (fun x hx => h x (by simp [hx]))
    unfold hexDecode hexEncode at hrest ⊢
    simp only [List.foldr_cons]
    show hexDecodeAux (hexDigitChar (b / 16) :: hexDigitChar (b % 16) :: _) = _
    unfold hexDecodeAux
    rw [hexDigit_roundtrip _ hhi, hexDigit_roundtrip _ hlo]
    simp only [hrest]
    have : b / 16 * 16 + b % 16 = b := by omega
    rw [this]

theorem find?_append_of_none {α : Type} (p : α → Bool) (l1 l2 : List α)
    (h : l1.find? p = none) : (l1 ++ l2).find? p = l2.find? p := by
  rw [List.find?_append, h, Option.none_or]

theorem findIdx?_isSome_of_find? {α : Type} (p : α → Bool) (l : List α)
    (h : (l.find? p).isSome) : (l.findIdx? p).isSome := by
  induction l with
  | nil => simp [List.find?] at h
  | cons a t ih =>
    rw [List.findIdx?_cons]
    by_cases hp : p a = true
    · simp [hp]
    · have hpf : p a = false := by simpa using hp
      rw [List.find?_cons, hpf] at h
      rw [hpf, List.findIdx?_succ]
      simpa using ih h

theorem findIdx?_decomp {α : Type} (p : α → Bool) (l : List α) (i : Nat)
    (h : l.findIdx? p = some i) :
    ∃ pre x post, l = pre ++ x :: post ∧ p x = true ∧ (∀ v ∈ pre, p v = false) ∧
      l.eraseIdx i = pre ++ post := by
  induction l generalizing i with
  | nil => simp [List.findIdx?] at h
  | cons a t ih =>
    rw [List.findIdx?_cons] at h
    by_cases hp : p a = true
    · rw [if_pos hp] at h
      obtain rfl : (0 : Nat) = i := by injection h
      exact ⟨[], a, t, rfl, hp, by simp, by simp⟩
    · rw [if_neg hp, List.findIdx?_succ] at h
      cases hft : t.findIdx? p with
      | none => rw [hft] at h; simp at h
      | some j =>
        rw [hft] at h
        obtain rfl : j + 1 = i := Option.some.inj h
        obtain ⟨pre, x, post, hl, hx, hpre, he⟩ := ih j hft
        refine ⟨a :: pre, x, post, by simp [hl], hx, ?_, ?_⟩
        · intro v hv
          rcases List.mem_cons.mp hv with rfl | hv2
          · simpa using hp
          · exact hpre v hv2
        · rw [List.eraseIdx_cons_succ, he]
          rfl

theorem modify_last_append {α : Type} (f : α → α) (l : List α) (a : α) :
    modify_last f (l ++ [a]) = l ++ [f a] := by
  induction l with
  | nil => rfl
  | cons x rest ih =>
    cases rest with
    | nil => rfl
    | cons y t =>
      show x :: modify_last f ((y :: t) ++ [a]) = x :: ((y :: t) ++ [f a])
      rw [ih]

/-- Decryption of the record produced by an add, under an arbitrary candidate
password: the stored hex salt and nonce decode back, and the ideal AEAD opens
exactly under the password used at add time. -/
theorem decrypt_after_add (st : WalletStore) (name S P Q addr : String)
    (salt nonce : List Nat) (hs : bytesOk salt) (hn : bytesOk nonce)
    (hany : st.wallets.any (fun w => w.name == name) = false) :
    decrypt_private_key
      (WalletStore.save { st with wallets := st.wallets ++
        [{ name := name, public_key := some addr,
           encrypted_private_key := aes256gcm_encrypt (derive_key P salt) nonce S,
           salt := hexEncode salt, nonce := hexEncode nonce }] }) name Q
    = if Q = P then Except.ok S else Except.error Err.invalidPassword := by
  have hnone : st.wallets.find? (fun w => w.name == name) = none := by
    rw [List.find?_eq_none]
    intro w hw
    exact (List.any_eq_false.mp hany) w hw
  simp only [decrypt_private_key, WalletStore.save, List.find?_append, hnone, Option.none_or,
    List.find?_cons, beq_self_eq_true, hexDecode_hexEncode salt hs, hexDecode_hexEncode nonce hn,
    aes256gcm_decrypt, aes256gcm_encrypt, derive_key, DerivedKey.mk.injEq, and_true, and_self]
  by_cases hq : Q = P
  · subst hq
    simp
  · rw [if_neg (fun hpq => hq hpq.symm), if_neg hq]

/-! ## Claim theorems: credential vault -/

/-- C1: for every vault state, fresh name, valid private key material S and
password P, a successful add of (name, S, P) makes a subsequent decrypt of
name under P succeed and return exactly the string S that was encrypted.
(The freshness of the name and the validity of S are forced by the success of
the add; the byte hypotheses record that the random salt and nonce are byte
slices.) -/
theorem wallet_roundtrip (st stNew : WalletStore) (name S P : String)
    (salt nonce : List Nat) (hs : bytesOk salt) (hn : bytesOk nonce)
    (hadd : add_wallet name S P salt nonce st = (stNew, Except.ok ())) :
    decrypt_private_key stNew name P = Except.ok S := by
  unfold add_wallet at hadd
  by_cases hany : st.wallets.any (fun w => w.name == name) = true
  · rw [if_pos hany] at hadd
    exact absurd (congrArg Prod.snd hadd) (by simp)
  · have hanyf : st.wallets.any (fun w => w.name == name) = false := by
      simpa using hany
    rw [if_neg (by simp [hanyf])] at hadd
    cases hd : derive_sui_address S with
    | error e =>
      rw [hd] at hadd
      exact absurd (congrArg Prod.snd hadd) (by simp)
    | ok addr =>
      rw [hd] at hadd
      have hst : stNew = WalletStore.save { st with wallets := st.wallets ++
          [{ name := name, public_key := some addr,
             encrypted_private_key := aes256gcm_encrypt (derive_key P salt) nonce S,
             salt := hexEncode salt, nonce := hexEncode nonce }] } :=
        (congrArg Prod.fst hadd).symm
      rw [hst]
      rw [decrypt_after_add st name S P P addr salt nonce hs hn hanyf]
      simp

set_option maxRecDepth 8000 in
set_option maxHeartbeats 2000000 in
/-- C1 witness. -/
theorem wallet_roundtrip_witness :
    decrypt_private_key
      (add_wallet "a" (String.mk (List.replicate 64 '1')) "pw"
        [0, 1, 2, 3] [9, 8, 7] { wallets := [], file := none }).1
      "a" "pw"
    = Except.ok (String.mk (List.replicate 64 '1')) :=
  wallet_roundtrip { wallets := [], file := none }
    (add_wallet "a" (String.mk (List.replicate 64 '1')) "pw"
      [0, 1, 2, 3] [9, 8, 7] { wallets := [], file := none }).1
    "a" (String.mk (List.replicate 64 '1')) "pw" [0, 1, 2, 3] [9, 8, 7]
    (by decide) (by decide) (by decide)

/-- C2: decrypting a record added under password P with any other password
fails deterministically with the invalid-password error (first part), and any
record whose authenticated decryption fails — whether through a wrong-password
key mismatch or a corrupted ciphertext — is reported with that same single
error, indistinguishably (second part). -/
theorem wrong_password_uniform (st stNew : WalletStore) (name S P Pbad : String)
    (salt nonce : List Nat) :
    (bytesOk salt → bytesOk nonce → Pbad ≠ P →
      add_wallet name S P salt nonce st = (stNew, Except.ok ()) →
      decrypt_private_key stNew name Pbad = Except.error Err.invalidPassword)
    ∧ (∀ w sb nb, st.wallets.find? (fun w2 => w2.name == name) = some w →
        hexDecode w.salt = some sb → hexDecode w.nonce = some nb →
        aes256gcm_decrypt (derive_key Pbad sb) nb w.encrypted_private_key = none →
        decrypt_private_key st name Pbad = Except.error Err.invalidPassword) := by
  constructor
  · intro hs hn hne hadd
    unfold add_wallet at hadd
    by_cases hany : st.wallets.any (fun w => w.name == name) = true
    · rw [if_pos hany] at hadd
      exact absurd (congrArg Prod.snd hadd) (by simp)
    · have hanyf : st.wallets.any (fun w => w.name == name) = false := by
        simpa using hany
      rw [if_neg (by simp [hanyf])] at hadd
      cases hd : derive_sui_address S with
      | error e =>
        rw [hd] at hadd
        exact absurd (congrArg Prod.snd hadd) (by simp)
      | ok addr =>
        rw [hd] at hadd
        have hst : stNew = WalletStore.save { st with wallets := st.wallets ++
            [{ name := name, public_key := some addr,
               encrypted_private_key := aes256gcm_encrypt (derive_key P salt) nonce S,
               salt := hexEncode salt, nonce := hexEncode nonce }] } :=
          (congrArg Prod.fst hadd).symm
        rw [hst]
        rw [decrypt_after_add st name S P Pbad addr salt nonce hs hn hanyf]
        rw [if_neg hne]
  · intro w sb nb hfind hsb hnb haes
    simp only [decrypt_private_key, hfind, hsb, hnb, haes]

set_option maxRecDepth 8000 in
set_option maxHeartbeats 2000000 in
/-- C2 witness. -/
theorem wrong_password_uniform_witness :
    decrypt_private_key
      (add_wallet "a" (String.mk (List.replicate 64 '1')) "pw"
        [0, 1, 2, 3] [9, 8, 7] { wallets := [], file := none }).1
      "a" "bad"
    = Except.error Err.invalidPassword :=
  (wrong_password_uniform { wallets := [], file := none }
      (add_wallet "a" (String.mk (List.replicate 64 '1')) "pw"
        [0, 1, 2, 3] [9, 8, 7] { wallets := [], file := none }).1
      "a" (String.mk (List.replicate 64 '1')) "pw" "bad" [0, 1, 2, 3] [9, 8, 7]).1
    (by decide) (by decide) (by decide) (by decide)

/-- C5: remove first performs a full decrypt of the target record as the
password proof-of-possession check; a failed decryption aborts removal with
the same error and no mutation at all (the store, memory and file, is handed
back untouched); a successful one deletes the record and persists the new
record list before returning success. -/
theorem remove_requires_password (st : WalletStore) (name password : String) :
    (∀ e, decrypt_private_key st name password = Except.error e →
        remove_wallet name password st = (st, Except.error e))
    ∧ (∀ sk, decrypt_private_key st name password = Except.ok sk →
        ∃ i, st.wallets.findIdx? (fun w => w.name == name) = some i ∧
          remove_wallet name password st =
            ({ wallets := st.wallets.eraseIdx i, file := some (st.wallets.eraseIdx i) },
             Except.ok ())) := by
  constructor
  · intro e he
    unfold remove_wallet
    rw [he]
  · intro sk hsk
    have hfs : (st.wallets.find? (fun w => w.name == name)).isSome := by
      unfold decrypt_private_key at hsk
      cases hff : st.wallets.find? (fun w => w.name == name) with
      | none => rw [hff] at hsk; exact absurd hsk (by simp)
      | some w => simp
    obtain ⟨i, hi⟩ := Option.isSome_iff_exists.mp (findIdx?_isSome_of_find? _ _ hfs)
    refine ⟨i, hi, ?_⟩
    unfold remove_wallet
    rw [hsk, hi]
    rfl

/-- C5 witness. -/
theorem remove_requires_password_witness :
    remove_wallet "a" "pw" exampleStore =
      ({ wallets := [], file := some [] }, Except.ok ()) := by
  obtain ⟨i, hi, he⟩ := (remove_requires_password exampleStore "a" "pw").2 "sk" (by decide)
  have hi0 : exampleStore.wallets.findIdx? (fun w => w.name == "a") = some 0 := by decide
  rw [hi0] at hi
  obtain rfl : (0 : Nat) = i := Option.some.inj hi
  exact he.trans (by decide)

/-- C6: an add whose name is already present (case-sensitive exact match)
always fails with the duplicate-name error and hands the store back exactly as
it was, before any key derivation, encryption or write is attempted. -/
theorem duplicate_add_rejected (st : WalletStore) (name key password : String)
    (salt nonce : List Nat) (w : Wallet) (hw : w ∈ st.wallets) (hname : w.name = name) :
    add_wallet name key password salt nonce st = (st, Except.error (Err.duplicateName name)) := by
  unfold add_wallet
  rw [if_pos (List.any_eq_true.mpr ⟨w, hw, by simp [hname]⟩)]

/-- C6 witness. -/
theorem duplicate_add_rejected_witness :
    add_wallet "a" "k" "p" [0] [1] exampleStore =
      (exampleStore, Except.error (Err.duplicateName "a")) :=
  duplicate_add_rejected exampleStore "a" "k" "p" [0] [1]
    { name := "a", public_key := some "addr",
      encrypted_private_key :=
        { key := { password := "pw", salt := [0] }, nonce := [1], plaintext := "sk" },
      salt := "00", nonce := "01" }
    (by decide) rfl

/-- C10: a successful add appends the new record at the end, leaving every
existing record unchanged and in its original relative order; a successful
remove deletes exactly the first record whose name matches, leaving all
records before it (none of which match) and after it unchanged and in
order. -/
theorem frame_preservation (st : WalletStore) (name key password : String)
    (salt nonce : List Nat) :
    ((add_wallet name key password salt nonce st).2 = Except.ok () →
      ∃ w, (add_wallet name key password salt nonce st).1.wallets = st.wallets ++ [w])
    ∧ ((remove_wallet name password st).2 = Except.ok () →
      ∃ pre w post, st.wallets = pre ++ w :: post ∧ w.name = name ∧
        (∀ v ∈ pre, v.name ≠ name) ∧
        (remove_wallet name password st).1.wallets = pre ++ post) := by
  constructor
  · intro h
    unfold add_wallet at h ⊢
    by_cases hany : st.wallets.any (fun w => w.name == name) = true
    · rw [if_pos hany] at h
      exact absurd h (by simp)
    · rw [if_neg hany] at h ⊢
      cases hd : derive_sui_address key with
      | error e =>
        rw [hd] at h
        exact absurd h (by simp)
      | ok addr =>
        exact ⟨_, rfl⟩
  · intro h
    unfold remove_wallet at h ⊢
    cases hdec : decrypt_private_key st name password with
    | error e =>
      rw [hdec] at h
      exact absurd h (by simp)
    | ok sk =>
      rw [hdec] at h
      cases hidx : st.wallets.findIdx? (fun w => w.name == name) with
      | none =>
        rw [hidx] at h
        exact absurd h (by simp)
      | some i =>
        obtain ⟨pre, x, post, hl, hx, hpre, he⟩ := findIdx?_decomp _ _ _ hidx
        refine ⟨pre, x, post, hl, by simpa using hx, ?_, ?_⟩
        · intro v hv
          simpa using hpre v hv
        · simpa [WalletStore.save] using he

set_option maxRecDepth 8000 in
set_option maxHeartbeats 2000000 in
/-- C10 witness. -/
theorem frame_preservation_witness :
    ∃ w, (add_wallet "b" (String.mk (List.replicate 64 '1')) "pw" [2] [3]
        exampleStore).1.wallets
      = exampleStore.wallets ++ [w] :=
  (frame_preservation exampleStore "b" (String.mk (List.replicate 64 '1')) "pw" [2] [3]).1
    (by decide)

/-! ## Claim theorems: session pipeline -/

/-- C3: on every exit path of the guarded scope after the worker process has
been spawned — normal completion of the interaction loop, early error return
when the connection retries are exhausted before any connection succeeds, or a
panic-equivalent abort — the guard's release fires, so the trace contains the
kill of the worker exactly once, and it is the final event of the scope. -/
theorem teardown_exactly_once (connect : Nat → Option Unit) (loopAborts : Bool) :
    ((run_cli_after_spawn connect loopAborts).2.count Event.kill = 1)
    ∧ ((run_cli_after_spawn connect loopAborts).2.getLast? = some Event.kill) := by
  unfold run_cli_after_spawn
  cases h : connect_with_retry connect MAX_RETRIES with
  | mk c n =>
    cases c <;>
      simp [List.count_append, List.count_replicate, List.getLast?_concat,
        List.count_singleton]

theorem connect_retry_go_exhaust {α : Type} (connect : Nat → Option α)
    (h : ∀ i, connect i = none) :
    ∀ fuel i, connect_retry_go connect fuel i = (none, fuel + i) := by
  intro fuel
  induction fuel with
  | zero => intro i; simp [connect_retry_go]
  | succ f ih =>
    intro i
    have step : connect_retry_go connect (f + 1) i = connect_retry_go connect f (i + 1) := by
      show (match connect i with
        | some c => (some c, i + 1)
        | none => connect_retry_go connect f (i + 1)) = connect_retry_go connect f (i + 1)
      rw [h i]
    rw [step, ih (i + 1)]
    congr 1
    omega

theorem connect_retry_go_success {α : Type} (connect : Nat → Option α) (c : α) :
    ∀ fuel i k, (∀ j, i ≤ j → j < k → connect j = none) → connect k = some c →
      i ≤ k → k < i + fuel → connect_retry_go connect fuel i = (some c, k + 1) := by
  intro fuel
  induction fuel with
  | zero =>
    intro i k _ _ hik hlt
    exact absurd hlt (by omega)
  | succ f ih =>
    intro i k hnone hk hik hlt
    by_cases hek : i = k
    · subst hek
      simp [connect_retry_go, hk]
    · have hi : connect i = none := hnone i le_rfl (by omega)
      unfold connect_retry_go
      rw [hi]
      exact ih (i + 1) k (fun j hj1 hj2 => hnone j (by omega) hj2) hk (by omega) (by omega)

/-- C7 (amended): against an endpoint that never accepts, the retry loop
performs exactly MAX_RETRIES = 90 attempts, no more and no fewer, and the
stage fails with the connection-timeout error carrying its fixed diagnostic
message (which does not include the endpoint or the attempt count); a success
at any attempt short-circuits the loop immediately, with exactly that many
attempts performed. -/
theorem retry_ceiling (connect : Nat → Option Unit) :
    ((∀ i, connect i = none) →
      connect_with_retry connect MAX_RETRIES = (none, 90) ∧
      connect_stage connect = Except.error (Err.connectionTimeout connect_timeout_msg))
    ∧ (∀ k c, k < MAX_RETRIES → (∀ j, j < k → connect j = none) → connect k = some c →
        connect_with_retry connect MAX_RETRIES = (some c, k + 1)) := by
  constructor
  · intro h
    have h1 : connect_with_retry connect MAX_RETRIES = (none, 90) := by
      unfold connect_with_retry
      rw [connect_retry_go_exhaust connect h MAX_RETRIES 0]
      rfl
    refine ⟨h1, ?_⟩
    unfold connect_stage
    rw [h1]
  · intro k c hk hnone hck
    unfold connect_with_retry
    exact connect_retry_go_success connect c MAX_RETRIES 0 k
      (fun j _ hj => hnone j hj) hck (Nat.zero_le k)
      (by simpa [MAX_RETRIES] using hk)

/-- C7 counterexample: with an endpoint that never accepts, the loop performs
exactly 90 attempts and fails with the connection-timeout error, but —
against the claim — the error's diagnostic message carries neither the
endpoint (no occurrence of its port 50051 or host marker) nor the attempt
count 90. -/
theorem retry_ceiling_counterexample :
    connect_with_retry (fun _ => (none : Option Unit)) MAX_RETRIES = (none, 90)
    ∧ connect_stage (fun _ => (none : Option Unit)) =
        Except.error (Err.connectionTimeout connect_timeout_msg)
    ∧ contains_sub connect_timeout_msg.data "50051".data = false
    ∧ contains_sub connect_timeout_msg.data "[::1]".data = false
    ∧ contains_sub connect_timeout_msg.data "90".data = false := by
  decide

/-- C7 witness (short-circuit at the fifth attempt). -/
theorem retry_ceiling_witness :
    connect_with_retry (fun i => if i = 4 then some () else none) MAX_RETRIES
      = (some (), 5) :=
  (retry_ceiling (fun i => if i = 4 then some () else none)).2 4 ()
    (by decide) (fun j hj => by simp [show j ≠ 4 by omega]) (by simp)

/-- C8: draining the fragments a, b, c followed by the terminator sentinel
appends them in that order into exactly the single in-progress Agent message
and finalizes it; the terminator itself never appears as visible content, and
every earlier (finalized) message of the transcript is untouched. -/
theorem streaming_order_finalize (pre : List ChatMessage) :
    drain_received ["a", "b", "c", STREAM_END]
        { messages := pre ++ [{ sender := Sender.agent, content := "", is_streaming := true }] }
      = { messages := pre ++ [{ sender := Sender.agent, content := "abc", is_streaming := false }] } := by
  simp [drain_received, STREAM_END, append_stream, finalize_ai_message, modify_last_append]

/-- C4 (amended): derive_sui_address accepts exactly two input shapes — a
bech32-style string starting with the fixed suiprivkey marker whose decoded
payload is one scheme byte 0x00 followed by 32 key bytes, or a string that
hex-decodes to exactly 32 bytes after stripping every repetition of a leading
0x marker — and fails with a validation error on every other input; for every
accepted input it returns the 0x-prefixed hex encoding of the 32-byte hash of
the scheme flag byte followed by the derived public key. -/
theorem derive_address_shapes (s : String) :
    (∀ pk, amended_key_bytes s = some pk →
      derive_sui_address s =
        Except.ok ("0x" ++ hexEncode (blake2b_256 (0 :: ed25519_public_key pk))))
    ∧ (amended_key_bytes s = none →
        ∃ m, derive_sui_address s = Except.error (Err.validation m)) := by
  unfold amended_key_bytes derive_sui_address priv_key_bytes
  by_cases hsw : starts_with_chars s.data "suiprivkey".data = true
  · simp only [hsw, if_true]
    cases hb : bech32_decode s with
    | none =>
      constructor
      · intro pk h
        exact absurd h (by simp)
      · intro _
        exact ⟨"Invalid bech32 private key", by simp⟩
    | some pr =>
      obtain ⟨hrp, data⟩ := pr
      cases hf : from_base32 data with
      | none =>
        constructor
        · intro pk h
          exact absurd h (by simp [hf])
        · intro _
          exact ⟨"Failed to convert from base32", by simp [hf]⟩
      | some decoded =>
        by_cases hc : decoded.length = 33 ∧ decoded.head? = some 0
        · have hlen : (decoded.drop 1).length = 32 := by
            rw [List.length_drop, hc.1]
          constructor
          · intro pk h
            have h2 : List.drop 1 decoded = pk := by
              simpa [hf, hc.1, hc.2] using h
            subst h2
            simp [hf, hc.1, hc.2, hlen]
          · intro h
            exact absurd h (by simp [hf, hc.1, hc.2])
        · constructor
          · intro pk h
            exact absurd h (by simp [hf, hc])
          · intro _
            exact ⟨"Invalid sui private key format", by simp [hf, hc]⟩
  · simp only [Bool.not_eq_true] at hsw
    simp only [hsw, Bool.false_eq_true, if_false]
    cases hx : hexDecode (String.mk (strip0xAll s.data)) with
    | none =>
      constructor
      · intro pk h
        exact absurd h (by simp)
      · intro _
        exact ⟨"Invalid private key hex", by simp⟩
    | some bs =>
      by_cases hl : bs.length = 32
      · constructor
        · intro pk h
          have h2 : bs = pk := by simpa [hl] using h
          subst h2
          simp [hl]
        · intro h
          exact absurd h (by simp [hl])
      · constructor
        · intro pk h
          exact absurd h (by simp [hl])
        · intro _
          exact ⟨"Invalid private key length", by simp [hl]⟩

set_option maxRecDepth 8000 in
set_option maxHeartbeats 2000000 in
/-- C4 counterexample: the input 0x0x followed by 64 hex digits lies outside
both input shapes the claim states — it is not bech32-decodable, and after
removing the single optional 0x marker it is not valid hex — yet
derive_sui_address accepts it, because the source strips every repetition of
the leading 0x marker. -/
theorem derive_address_claim_counterexample :
    claim_key_bytes (String.mk ('0' :: 'x' :: '0' :: 'x' :: List.replicate 64 '1')) = none
    ∧ (derive_sui_address (String.mk ('0' :: 'x' :: '0' :: 'x' :: List.replicate 64 '1'))).isOk
        = true := by
  constructor
  · decide
  · decide

set_option maxRecDepth 8000 in
set_option maxHeartbeats 2000000 in
/-- C4 witness: one accepted input of each shape. -/
theorem derive_address_shapes_witness :
    derive_sui_address (String.mk (List.replicate 64 '1'))
      = Except.ok
          ("0x" ++ hexEncode (blake2b_256 (0 :: ed25519_public_key (List.replicate 32 17))))
    ∧ derive_sui_address
          "suiprivkey1qqqqqqqqqqqqqqqqqqqqqqqqqqqqqqqqqqqqqqqqqqqqqqqqqqqqq509duq"
      = Except.ok
          ("0x" ++ hexEncode (blake2b_256 (0 :: ed25519_public_key (List.replicate 32 0)))) :=
  ⟨(derive_address_shapes (String.mk (List.replicate 64 '1'))).1
      (List.replicate 32 17) (by decide),
   (derive_address_shapes
        "suiprivkey1qqqqqqqqqqqqqqqqqqqqqqqqqqqqqqqqqqqqqqqqqqqqqqqqqqqqq509duq").1
      (List.replicate 32 0) (by decide)⟩
